import Mathlib

/-!
Verification of the template parsing and rendering engine of the `nameit`
batch file-renamer (src/main.rs), as a shallow embedding.

Strings are modelled as `List Char`.  The source's scan iterates
`st.chars().enumerate()` (character indices) but slices with `&st[last..i]`
(byte offsets) and compares against `st.len()` (byte length), so the scan is
embedded twice: `fromAux` works with character indices (it coincides with the
source exactly on templates whose characters are all single byte), while
`fromAuxBytes` models the byte-offset slicing exactly, including the Rust
panic on a slice end point that is not a character boundary; an agreement
lemma connects the two on single-byte input.  Interactive standard input is
modelled as a list of lines; a run that would block forever waiting for input
is the `blocked` outcome.  Rust panics are modelled as explicit `panicked` /
`error` outcomes.
-/

/-- Strings of the model: lists of characters. -/
abbrev Str := List Char

/-- Convert a Lean string literal to the model's string type. -/
def s2l (s : String) : Str := s.data

/-- The open-marker character of the template syntax (an opening curly brace). -/
def obr : Char := Char.ofNat 123

/-- The close-marker character of the template syntax (a closing curly brace). -/
def cbr : Char := Char.ofNat 125

/-- Parts of a parsed name template, as in the source's `NamePart` enum. -/
inductive NamePart where
  | String (s : Str)
  | Variable (s : Str)
  | Parameter (s : Str)
  | Delimiter (s : Str)
deriving DecidableEq, Repr

/-- The source text a part carries. -/
def partText : NamePart → Str
  | NamePart.String s => s
  | NamePart.Variable s => s
  | NamePart.Parameter s => s
  | NamePart.Delimiter s => s

/-- Concatenation of the source text of a list of parts, in order. -/
def partsText (ps : List NamePart) : Str := (ps.map partText).flatten

/-- A parsed template: an ordered list of parts (struct `NameTemplate`). -/
structure NameTemplate where
  parts : List NamePart
deriving DecidableEq, Repr

/-- The slice `st[a..b]` of the source string (character indices). -/
def strSlice (st : Str) (a b : Nat) : Str := (st.take b).drop a

/-- The scan loop of `NameTemplate::from` (src/main.rs lines 33-69) in its
character-index form: a single left-to-right pass over the characters with
their index `i`, tracking the start `last` of the current pending run and the
inside-marker `flag`.  Runs outside markers are flushed as `Variable`, runs
inside markers as `String`, an underscore outside a marker becomes a
`Delimiter` part.  The source's three `panic!` calls are modelled as
`Except.error`.  The source slices with `&st[last..i]`, i.e. with the
character indices used as BYTE offsets; this form slices by character index
instead and therefore coincides with the source exactly only when every
character is a single byte — the byte-exact form is `fromAuxBytes` below. -/
def fromAux (st : Str) : Str → Nat → Nat → Bool → List NamePart → Except Str (List NamePart)
  | [], _, last, flag, acc =>
    if flag then Except.error (s2l "Invalid Format: Unclosed open marker")
    else if last ≠ st.length then
      Except.ok (acc ++ [NamePart.Variable (strSlice st last st.length)])
    else Except.ok acc
  | c :: rest, i, last, flag, acc =>
    if c = obr then
      if flag then Except.error (s2l "Invalid Format: unexpected open marker")
      else
        fromAux st rest (i + 1) (i + 1) true
          (if i ≠ last then acc ++ [NamePart.Variable (strSlice st last i)] else acc)
    else if c = cbr then
      if flag then
        fromAux st rest (i + 1) (i + 1) false
          (if i ≠ last then acc ++ [NamePart.String (strSlice st last i)] else acc)
      else Except.error (s2l "Invalid Format: unexpected close marker")
    else if c = '_' ∧ flag = false then
      fromAux st rest (i + 1) (i + 1) false
        ((if i ≠ last then acc ++ [NamePart.Variable (strSlice st last i)] else acc)
          ++ [NamePart.Delimiter [Char.ofNat 95]])
    else fromAux st rest (i + 1) last flag acc

/-- The second classification pass of `NameTemplate::from` (lines 71-84): a
`Variable` whose first character is one of the sigils percent, star, question
mark or hash becomes a `Parameter`.  The source's `.expect("Empty Variable")`
panic on an empty variable is modelled as `Except.error`. -/
def classifyVar : NamePart → Except Str NamePart
  | NamePart.Variable v =>
    match v with
    | [] => Except.error (s2l "Empty Variable")
    | c :: _ =>
      if c = '%' ∨ c = '*' ∨ c = '?' ∨ c = '#' then Except.ok (NamePart.Parameter v)
      else Except.ok (NamePart.Variable v)
  | p => Except.ok p

/-- Apply `classifyVar` to every part, propagating the first failure. -/
def classifyAll : List NamePart → Except Str (List NamePart)
  | [] => Except.ok []
  | p :: ps =>
    match classifyVar p, classifyAll ps with
    | Except.ok q, Except.ok qs => Except.ok (q :: qs)
    | Except.error e, _ => Except.error e
    | _, Except.error e => Except.error e

/-- `NameTemplate::from` (src/main.rs lines 31-87): scan, then classify. -/
def NameTemplate.fromStr (st : Str) : Except Str NameTemplate :=
  match fromAux st st 0 0 false [] with
  | Except.error e => Except.error e
  | Except.ok ps =>
    match classifyAll ps with
    | Except.error e => Except.error e
    | Except.ok qs => Except.ok (NameTemplate.mk qs)

/-- The UTF-8 byte length of a string, as Rust's `str::len()`. -/
def utf8Len (st : Str) : Nat := (st.map Char.utf8Size).sum

/-- Take the first `n` BYTES of a string's UTF-8 encoding, decoded back to
characters: `none` when `n` exceeds the byte length or falls strictly inside
a character's encoding (not a character boundary) — the Rust slicing panic. -/
def takeBytes : Str → Nat → Option Str
  | _, 0 => some []
  | [], _ + 1 => none
  | c :: rest, n + 1 =>
    if n + 1 < c.utf8Size then none
    else (takeBytes rest (n + 1 - c.utf8Size)).map (fun t => c :: t)

/-- Drop the first `n` BYTES of a string's UTF-8 encoding: `none` when `n`
exceeds the byte length or is not a character boundary. -/
def dropBytes : Str → Nat → Option Str
  | s, 0 => some s
  | [], _ + 1 => none
  | c :: rest, n + 1 =>
    if n + 1 < c.utf8Size then none
    else dropBytes rest (n + 1 - c.utf8Size)

/-- The byte slice `&st[a..b]` of Rust: take `b` bytes, then drop `a` bytes.
`none` models the panic when an end point exceeds the length, is not a
character boundary, or `a` exceeds `b`. -/
def byteSlice (st : Str) (a b : Nat) : Option Str :=
  match takeBytes st b with
  | none => none
  | some t => dropBytes t a

/-- The scan loop of `NameTemplate::from` (src/main.rs lines 33-69) with the
source's slicing modelled byte-exactly: the loop enumerates characters
(index `i`), but every flush slices `&st[last..i]` with those indices used as
BYTE offsets, and the final check compares `last` against the byte length
`st.len()`.  A slice off a character boundary is the corresponding Rust
panic, modelled as an error like the three explicit `panic!` calls. -/
def fromAuxBytes (st : Str) : Str → Nat → Nat → Bool → List NamePart → Except Str (List NamePart)
  | [], _, last, flag, acc =>
    if flag then Except.error (s2l "Invalid Format: Unclosed open marker")
    else if last ≠ utf8Len st then
      match byteSlice st last (utf8Len st) with
      | some sl => Except.ok (acc ++ [NamePart.Variable sl])
      | none => Except.error (s2l "byte index is not a char boundary")
    else Except.ok acc
  | c :: rest, i, last, flag, acc =>
    if c = obr then
      if flag then Except.error (s2l "Invalid Format: unexpected open marker")
      else if i ≠ last then
        match byteSlice st last i with
        | some sl => fromAuxBytes st rest (i + 1) (i + 1) true (acc ++ [NamePart.Variable sl])
        | none => Except.error (s2l "byte index is not a char boundary")
      else fromAuxBytes st rest (i + 1) (i + 1) true acc
    else if c = cbr then
      if flag then
        if i ≠ last then
          match byteSlice st last i with
          | some sl => fromAuxBytes st rest (i + 1) (i + 1) false (acc ++ [NamePart.String sl])
          | none => Except.error (s2l "byte index is not a char boundary")
        else fromAuxBytes st rest (i + 1) (i + 1) false acc
      else Except.error (s2l "Invalid Format: unexpected close marker")
    else if c = '_' ∧ flag = false then
      if i ≠ last then
        match byteSlice st last i with
        | some sl => fromAuxBytes st rest (i + 1) (i + 1) false
            (acc ++ [NamePart.Variable sl, NamePart.Delimiter [Char.ofNat 95]])
        | none => Except.error (s2l "byte index is not a char boundary")
      else fromAuxBytes st rest (i + 1) (i + 1) false (acc ++ [NamePart.Delimiter [Char.ofNat 95]])
    else fromAuxBytes st rest (i + 1) last flag acc

/-- `NameTemplate::from` (src/main.rs lines 31-87) with byte-exact slicing:
scan with `fromAuxBytes`, then classify. -/
def NameTemplate.fromStrBytes (st : Str) : Except Str NameTemplate :=
  match fromAuxBytes st st 0 0 false [] with
  | Except.error e => Except.error e
  | Except.ok ps =>
    match classifyAll ps with
    | Except.error e => Except.error e
    | Except.ok qs => Except.ok (NameTemplate.mk qs)

deriving instance DecidableEq for Except

/-- Whether an `Except` value is a success. -/
def isOkE {ε α : Type} : Except ε α → Bool
  | Except.ok _ => true
  | Except.error _ => false

/-- Independent well-formedness of a template's marker structure: scanning
left to right with an inside-marker flag, a close-marker must occur inside a
marker, an open-marker must occur outside one, and the input must not end
inside a marker. -/
def markersOk (flag : Bool) : Str → Bool
  | [] => !flag
  | c :: rest =>
    if c = obr then !flag && markersOk true rest
    else if c = cbr then flag && markersOk false rest
    else markersOk flag rest

/-- Characters of the source template that survive into parts: everything
except the two marker characters. -/
def keepChar (c : Char) : Bool :=
  if c = obr then false else if c = cbr then false else true

/-- Whitespace test used by the model of Rust's `str::trim`.  Rust trims all
Unicode White_Space characters; this models the ASCII subset (space, tab,
line feed, carriage return), which covers every input the interactive lines
of this program carry — the two coincide on strings free of exotic Unicode
whitespace. -/
def isWS (c : Char) : Bool := c = ' ' ∨ c = '\t' ∨ c = '\n' ∨ c = '\r'

/-- Model of Rust's `str::trim`: drop leading and trailing whitespace. -/
def trimStr (s : Str) : Str := ((s.dropWhile isWS).reverse.dropWhile isWS).reverse

/-- One step of accumulating a decimal value, digit characters to numbers. -/
def pstep (a : Nat) (c : Char) : Nat := 10 * a + (c.toNat - 48)

/-- Model of Rust's `str::parse::<usize>()` on a trimmed input: succeeds on a
nonempty all-digit string, giving its decimal value. -/
def parseUsize (s : Str) : Option Nat :=
  if s ≠ [] ∧ s.all (fun c => c.isDigit) then some (s.foldl pstep 0) else none

/-- The character for decimal digit `d`. -/
def digitChar (d : Nat) : Char := Char.ofNat (48 + d)

/-- Decimal digit characters of `n`, most significant first, by repeated
division (with explicit fuel); empty for `n = 0`. -/
def natStrAux : Nat → Nat → Str
  | 0, _ => []
  | _, 0 => []
  | fuel + 1, n => natStrAux fuel (n / 10) ++ [digitChar (n % 10)]

/-- Decimal rendering of `n`, as Rust's `format!` prints it. -/
def natStr (n : Nat) : Str := if n = 0 then [Char.ofNat 48] else natStrAux n n

/-- Left zero-padding to a minimum width `w`, as Rust's `format!` with a
`0w` width specification. -/
def zeroPad (w : Nat) (s : Str) : Str := List.replicate (w - s.length) (Char.ofNat 48) ++ s

/-- Model of Rust's `str::split(d)`: the runs between occurrences of the
separator, keeping empty runs. -/
def splitChar (d : Char) : Str → List Str
  | [] => [[]]
  | c :: rest =>
    if c = d then [] :: splitChar d rest
    else
      match splitChar d rest with
      | [] => [[c]]
      | g :: gs => (c :: g) :: gs

/-- Whether the string starts with the given character. -/
def strStartsWith (p : Str) (c : Char) : Bool :=
  match p with
  | [] => false
  | a :: _ => a = c

/-- Modelled from the spec: one piece of the external `number_range` crate's
range expression (the crate itself is not part of this repository): a plain
1-based index, or a hyphenated range whose missing endpoints default to the
given start and end. -/
def rangePiece (ds de : Nat) (piece : Str) : Option (List Nat) :=
  match splitChar '-' piece with
  | [a] => (parseUsize a).map (fun x => [x])
  | [a, b] =>
    match (if a = [] then some ds else parseUsize a),
        (if b = [] then some de else parseUsize b) with
    | some x, some y => some (List.range' x (y + 1 - x))
    | _, _ => none
  | _ => none

/-- Modelled from the spec: the external `number_range` crate's parser for a
comma-separated list of indices and hyphenated ranges; any malformed piece
makes the whole expression an error. -/
def rangeParse (ds de : Nat) (s : Str) : Option (List Nat) :=
  ((splitChar ',' s).mapM (rangePiece ds de)).map List.flatten

/-- Outcome of the `choose` interaction (src/main.rs lines 213-336).  The
`err` outcome carries the candidate list as it stands when the error is
returned (the Rust list is borrowed mutably, so the caller observes it). -/
inductive ChooseRes where
  | ok (ret : Str) (vec : List Str) (stdin : List Str)
  | err (msg : Str) (vec : List Str)
  | panicked (msg : Str)
  | blocked
deriving DecidableEq, Repr

/-- Outcome of the selection loop inside `choose`. -/
inductive LoopOut where
  | retNow (ret : Str) (vec : List Str) (stdin : List Str)
  | sel (choice : Nat) (stdin : List Str)
  | goManual (stdin : List Str)
  | lerr (msg : Str) (vec : List Str)
  | blocked
deriving DecidableEq, Repr

/-- The tail of `choose` (lines 332-335): remove the chosen entry and
re-insert it at the front, returning it.  An out-of-bounds index would be a
Rust panic. -/
def moveToFront (vec : List Str) (choice : Nat) (stdin : List Str) : ChooseRes :=
  match vec.get? choice with
  | some x => ChooseRes.ok x (x :: vec.eraseIdx choice) stdin
  | none => ChooseRes.panicked (s2l "index out of bounds")

/-- The manual-entry block of `choose` (lines 321-331): read one line, push
its trimmed text onto the candidates, and move it to the front. -/
def manualEntry (vec : List Str) : List Str → ChooseRes
  | [] => ChooseRes.blocked
  | line :: rest =>
    moveToFront (vec ++ [trimStr line]) ((vec ++ [trimStr line]).length - 1) rest

/-- The selection loop of `choose` (lines 259-315), one stdin line per
iteration.  Empty input returns the default (filter mode) or selects the
first entry; in filter mode a range expression prunes the candidates in
place and is returned, and a malformed one propagates an error out of
`choose` (the source's `?` operator); otherwise a numeric selection beyond
the list length or a non-numeric input re-prompts, `0` switches to manual
entry, and `1`-based index `c` selects entry `c - 1`. -/
def chooseLoop (vec : List Str) (filterB : Bool) (defStr : Str) : List Str → LoopOut
  | [] => LoopOut.blocked
  | line :: rest =>
    if trimStr line = [] then
      if filterB then LoopOut.retNow defStr vec rest else LoopOut.sel 0 rest
    else if filterB then
      match rangeParse 1 vec.length (trimStr line) with
      | none => LoopOut.lerr (s2l "invalid range expression") vec
      | some choices =>
        LoopOut.retNow line
          (((vec.enum).filter (fun q => choices.contains (q.1 + 1))).map (fun q => q.2)) rest
    else
      match parseUsize (trimStr line) with
      | none => chooseLoop vec filterB defStr rest
      | some c =>
        if vec.length < c then chooseLoop vec filterB defStr rest
        else if c = 0 then LoopOut.goManual rest
        else LoopOut.sel (c - 1) rest

/-- `choose` (src/main.rs lines 213-336), with standard input as a list of
lines.  An empty candidate list goes straight to manual entry (or returns
"0" in filter mode); otherwise the selection loop runs and its outcome is
finished off as in the source. -/
def choose (prompt : Str) (vec : List Str) (filterB : Bool) (maxChoice : Nat)
    (stdin : List Str) : ChooseRes :=
  if vec.length = 0 then
    if filterB then ChooseRes.ok (s2l "0") vec stdin
    else manualEntry vec stdin
  else
    let defStr := if filterB then s2l "1-" ++ natStr vec.length else s2l "1"
    match chooseLoop vec filterB defStr stdin with
    | LoopOut.retNow r v s => ChooseRes.ok r v s
    | LoopOut.lerr m v => ChooseRes.err m v
    | LoopOut.blocked => ChooseRes.blocked
    | LoopOut.goManual rest =>
      if filterB then ChooseRes.ok (s2l "0") vec rest else manualEntry vec rest
    | LoopOut.sel choice rest => moveToFront vec choice rest

/-- The persisted history (struct `History`, lines 169-174): previously used
formats, the set of variable names seen, and per-variable value lists
(most recent first).  The hash set and hash map are modelled as lists. -/
structure History where
  formats : List Str
  varNames : List Str
  values : List (Str × List Str)
deriving DecidableEq, Repr

/-- Lookup in the modelled `values` map. -/
def lookupVals : List (Str × List Str) → Str → Option (List Str)
  | [], _ => none
  | (k, v) :: m, q => if k = q then some v else lookupVals m q

/-- Insertion into the modelled `values` map: replace the binding if the key
is present, otherwise add it. -/
def insertAssoc (m : List (Str × List Str)) (k : Str) (v : List Str) :
    List (Str × List Str) :=
  if m.any (fun p => p.1 = k) then m.map (fun p => if p.1 = k then (k, v) else p)
  else m ++ [(k, v)]

/-- Insertion into the modelled `variables` set. -/
def insertSet (s : List Str) (x : Str) : List Str := if x ∈ s then s else x :: s

/-- The special-parameter substitution of `render_filename` (lines 371-388),
in the source's branch order: an all-hash spec zero-pads the sequence index
to the spec's length; the single question mark yields the original stem; a
leading percent formats the current time (modelled by the injected `nowFmt`);
an all-star spec keeps the first `length` underscore-separated groups of the
stem; anything else is the source's `panic!`, modelled as `none`. -/
def resolveSpecial (cur : Str) (num : Nat) (nowFmt : Str → Str) (p : Str) : Option Str :=
  if p.all (fun c => c = '#') then some (zeroPad p.length (natStr num))
  else if p = ['?'] then some cur
  else if strStartsWith p '%' then some (nowFmt p)
  else if p.all (fun c => c = '*') then
    some (List.intercalate [Char.ofNat 95] ((splitChar '_' cur).take p.length))
  else none

/-- Outcome of rendering: the list of rendered part strings together with
the final history and remaining input, or an error / panic / blocked wait. -/
inductive RenderRes where
  | ok (parts : List Str) (hist : History) (stdin : List Str)
  | err (msg : Str)
  | panicked (msg : Str)
  | blocked
deriving DecidableEq, Repr

/-- Prepend one rendered part to a rendering outcome. -/
def renderCons (x : Str) : RenderRes → RenderRes
  | RenderRes.ok l h s => RenderRes.ok (x :: l) h s
  | r => r

/-- The per-part loop of `render_filename` (src/main.rs lines 338-397).  A
`Variable` present in the history takes the stored list's first entry when
`lastB` is set (a Rust panic if that list is empty), and otherwise runs
`choose` on the stored list, writing the mutated list back; an absent
`Variable` is registered and resolved by `choose` on a fresh empty list;
a `Parameter` is substituted by `resolveSpecial`; `String` and `Delimiter`
parts are emitted verbatim. -/
def renderParts (cur : Str) (num : Nat) (lastB : Bool) (maxChoice : Nat)
    (nowFmt : Str → Str) : History → List NamePart → List Str → RenderRes
  | hist, [], stdin => RenderRes.ok [] hist stdin
  | hist, NamePart.Variable v :: ps, stdin =>
    (match lookupVals hist.values v with
    | some k =>
      if lastB then
        match k.get? 0 with
        | some x => renderCons x (renderParts cur num lastB maxChoice nowFmt hist ps stdin)
        | none => RenderRes.panicked (s2l "index out of bounds")
      else
        match choose v k false maxChoice stdin with
        | ChooseRes.ok ret newVec stdin2 =>
          renderCons ret (renderParts cur num lastB maxChoice nowFmt
            (History.mk hist.formats hist.varNames (insertAssoc hist.values v newVec))
            ps stdin2)
        | ChooseRes.err m _ => RenderRes.err m
        | ChooseRes.panicked m => RenderRes.panicked m
        | ChooseRes.blocked => RenderRes.blocked
    | none =>
      match choose v [] false maxChoice stdin with
      | ChooseRes.ok ret newVec stdin2 =>
        renderCons ret (renderParts cur num lastB maxChoice nowFmt
          (History.mk hist.formats (insertSet hist.varNames v)
            (insertAssoc hist.values v newVec))
          ps stdin2)
      | ChooseRes.err m _ => RenderRes.err m
      | ChooseRes.panicked m => RenderRes.panicked m
      | ChooseRes.blocked => RenderRes.blocked)
  | hist, NamePart.Parameter q :: ps, stdin =>
    (match resolveSpecial cur num nowFmt q with
    | some sres => renderCons sres (renderParts cur num lastB maxChoice nowFmt hist ps stdin)
    | none => RenderRes.panicked (s2l "Unexpected Special Parameter"))
  | hist, NamePart.Delimiter d :: ps, stdin =>
    renderCons d (renderParts cur num lastB maxChoice nowFmt hist ps stdin)
  | hist, NamePart.String sx :: ps, stdin =>
    renderCons sx (renderParts cur num lastB maxChoice nowFmt hist ps stdin)

/-- `render_filename` (src/main.rs lines 338-397) on a parsed template. -/
def renderFilename (cur : Str) (hist : History) (templ : NameTemplate) (num : Nat)
    (lastB : Bool) (maxChoice : Nat) (nowFmt : Str → Str) (stdin : List Str) : RenderRes :=
  renderParts cur num lastB maxChoice nowFmt hist templ.parts stdin

/-! Helper lemmas about slices and part text. -/

theorem partsText_append (a b : List NamePart) :
    partsText (a ++ b) = partsText a ++ partsText b := by
  simp [partsText]

theorem partsText_cons (p : NamePart) (ps : List NamePart) :
    partsText (p :: ps) = partText p ++ partsText ps := by
  simp [partsText]

theorem strSlice_empty (st : Str) (a : Nat) : strSlice st a a = [] := by
  rw [strSlice, List.drop_eq_nil_iff_le]
  simp [List.length_take]

theorem strSlice_length (st : Str) (a b : Nat) (h2 : b ≤ st.length) :
    (strSlice st a b).length = b - a := by
  simp [strSlice, List.length_take]
  omega

theorem strSlice_nonnil (st : Str) (a b : Nat) (h1 : a < b) (h2 : b ≤ st.length) :
    strSlice st a b ≠ [] := by
  intro h
  have := strSlice_length st a b h2
  rw [h] at this
  simp at this
  omega

theorem drop_eq_slice_append (st : Str) (a b : Nat) (h1 : a ≤ b) (h2 : b ≤ st.length) :
    st.drop a = strSlice st a b ++ st.drop b := by
  conv_lhs => rw [← List.take_append_drop b st]
  rw [List.drop_append_of_le_length (by simp [List.length_take]; omega)]
  rfl

theorem strSlice_extend (st : Str) (last i : Nat) (c : Char) (hle : last ≤ i)
    (hc : st.get? i = some c) :
    strSlice st last (i + 1) = strSlice st last i ++ [c] := by
  have hi : i < st.length := by
    by_contra h
    rw [List.get?_eq_none.mpr (by omega)] at hc
    exact Option.noConfusion hc
  rw [strSlice, strSlice, List.take_succ]
  rw [List.get?_eq_getElem?] at hc
  rw [hc]
  rw [List.drop_append_of_le_length (by simp [List.length_take]; omega)]
  rfl

theorem flushRun_text (acc : List NamePart) (p : NamePart) (st : Str) (last i : Nat)
    (hpt : partText p = strSlice st last i) :
    partsText (if i ≠ last then acc ++ [p] else acc) = partsText acc ++ strSlice st last i := by
  by_cases h : i = last
  · subst h
    rw [if_neg (by simp), strSlice_empty]
    simp
  · rw [if_pos h, partsText_append, partsText_cons]
    simp [partsText, hpt]

theorem flushRun_nonempty (acc : List NamePart) (p : NamePart) (st : Str) (last i : Nat)
    (hli : last ≤ i) (hil : i ≤ st.length) (hpt : partText p = strSlice st last i)
    (hacc : ∀ q ∈ acc, partText q ≠ []) :
    ∀ q ∈ (if i ≠ last then acc ++ [p] else acc), partText q ≠ [] := by
  by_cases h : i = last
  · rw [if_neg (by simp [h])]
    exact hacc
  · rw [if_pos h]
    intro q hq
    rcases List.mem_append.mp hq with hm | hm
    · exact hacc q hm
    · rw [List.mem_singleton.mp hm, hpt]
      exact strSlice_nonnil st last i (by omega) hil

theorem keepChar_other (c : Char) (h1 : c ≠ obr) (h2 : c ≠ cbr) : keepChar c = true := by
  simp [keepChar, h1, h2]

theorem isOkE_ok {ε α : Type} (a : α) : isOkE (Except.ok a : Except ε α) = true := rfl

theorem isOkE_error {ε α : Type} (e : ε) : isOkE (Except.error e : Except ε α) = false := rfl

theorem fromAux_isOk (st : Str) : ∀ (rem : Str) (i last : Nat) (flag : Bool)
    (acc : List NamePart),
    isOkE (fromAux st rem i last flag acc) = markersOk flag rem := by
  intro rem
  induction rem with
  | nil =>
    intro i last flag acc
    cases flag
    · by_cases h : last = st.length <;>
        simp [fromAux, markersOk, isOkE_ok, isOkE_error, h]
    · simp [fromAux, markersOk, isOkE_error]
  | cons c rest ih =>
    intro i last flag acc
    by_cases h1 : c = obr
    · subst h1
      cases flag <;> simp [fromAux, markersOk, isOkE_error, ih]
    · by_cases h2 : c = cbr
      · subst h2
        have hno : cbr ≠ obr := by decide
        cases flag <;> simp [fromAux, markersOk, isOkE_error, ih, hno]
      · by_cases h3 : c = '_'
        · subst h3
          cases flag <;> simp [fromAux, markersOk, isOkE_error, ih, h1, h2]
        · cases flag <;> simp [fromAux, markersOk, isOkE_error, ih, h1, h2, h3]

theorem fromAux_nil (st : Str) (i last : Nat) (flag : Bool) (acc : List NamePart) :
    fromAux st [] i last flag acc =
      if flag then Except.error (s2l "Invalid Format: Unclosed open marker")
      else if last ≠ st.length then
        Except.ok (acc ++ [NamePart.Variable (strSlice st last st.length)])
      else Except.ok acc := by
  simp [fromAux]

theorem fromAux_cons_obr (st rest : Str) (i last : Nat) (flag : Bool) (acc : List NamePart) :
    fromAux st (obr :: rest) i last flag acc =
      if flag then Except.error (s2l "Invalid Format: unexpected open marker")
      else fromAux st rest (i + 1) (i + 1) true
        (if i ≠ last then acc ++ [NamePart.Variable (strSlice st last i)] else acc) := by
  simp [fromAux]

theorem fromAux_cons_cbr (st rest : Str) (i last : Nat) (flag : Bool) (acc : List NamePart) :
    fromAux st (cbr :: rest) i last flag acc =
      if flag then fromAux st rest (i + 1) (i + 1) false
        (if i ≠ last then acc ++ [NamePart.String (strSlice st last i)] else acc)
      else Except.error (s2l "Invalid Format: unexpected close marker") := by
  have h : cbr ≠ obr := by decide
  simp [fromAux, h]

theorem fromAux_cons_us (st rest : Str) (i last : Nat) (flag : Bool) (acc : List NamePart) :
    fromAux st ('_' :: rest) i last flag acc =
      if flag then fromAux st rest (i + 1) last flag acc
      else fromAux st rest (i + 1) (i + 1) false
        ((if i ≠ last then acc ++ [NamePart.Variable (strSlice st last i)] else acc)
          ++ [NamePart.Delimiter [Char.ofNat 95]]) := by
  have h1 : '_' ≠ obr := by decide
  have h2 : '_' ≠ cbr := by decide
  cases flag <;> simp [fromAux, h1, h2]

theorem fromAux_cons_other (st : Str) (c : Char) (rest : Str) (i last : Nat) (flag : Bool)
    (acc : List NamePart) (h1 : c ≠ obr) (h2 : c ≠ cbr) (h3 : c ≠ '_') :
    fromAux st (c :: rest) i last flag acc = fromAux st rest (i + 1) last flag acc := by
  simp [fromAux, h1, h2, h3]

/-- Master invariant of the scan loop: from a valid intermediate state (the
remaining input is the suffix at `i`, the pending run holds no marker
characters, the accumulated parts have non-empty text), a successful scan
produces parts whose concatenated text is the accumulated text followed by
the marker-stripped remainder from `last`, and all parts have non-empty
text. -/
theorem fromAux_main (st : Str) : ∀ (rem : Str) (i last : Nat) (flag : Bool)
    (acc parts : List NamePart),
    rem = st.drop i → last ≤ i → i ≤ st.length →
    (∀ c ∈ strSlice st last i, keepChar c = true) →
    (∀ p ∈ acc, partText p ≠ []) →
    fromAux st rem i last flag acc = Except.ok parts →
    partsText parts = partsText acc ++ (st.drop last).filter keepChar
      ∧ ∀ p ∈ parts, partText p ≠ [] := by
  intro rem
  induction rem with
  | nil =>
    intro i last flag acc parts hrem hli hil hpend hacc hok
    have hlen : st.length ≤ i := List.drop_eq_nil_iff_le.mp hrem.symm
    have hieq : i = st.length := by omega
    subst hieq
    rw [fromAux_nil] at hok
    cases flag with
    | true => exact absurd hok (by simp)
    | false =>
      rw [if_neg Bool.false_ne_true] at hok
      by_cases hl : last = st.length
      · rw [if_neg (by simp [hl])] at hok
        injection hok with hh
        subst hh
        constructor
        · rw [hl, List.drop_length]
          simp
        · exact hacc
      · rw [if_pos hl] at hok
        injection hok with hh
        subst hh
        have hsl : (st.drop last).filter keepChar = strSlice st last st.length := by
          rw [drop_eq_slice_append st last st.length (by omega) (le_refl _), List.drop_length,
            List.filter_append, List.filter_eq_self.mpr hpend]
          simp
        constructor
        · rw [partsText_append, hsl]
          simp [partsText, partText]
        · intro p hp
          rcases List.mem_append.mp hp with hm | hm
          · exact hacc p hm
          · rw [List.mem_singleton.mp hm]
            show strSlice st last st.length ≠ []
            exact strSlice_nonnil st last st.length (by omega) (le_refl _)
  | cons c rest ih =>
    intro i last flag acc parts hrem hli hil hpend hacc hok
    have hlt : i < st.length := by
      by_contra h
      have hnil : st.drop i = [] := List.drop_eq_nil_iff_le.mpr (by omega)
      rw [hnil] at hrem
      exact List.noConfusion hrem
    have hgc : st.get? i = some c := by
      have h0 := List.get?_drop st i 0
      rw [← hrem] at h0
      simpa using h0.symm
    have hrest : rest = st.drop (i + 1) := by
      have hd := List.drop_drop 1 i st
      rw [← hrem] at hd
      simpa using hd
    have hsplit : st.drop last = strSlice st last i ++ c :: st.drop (i + 1) := by
      rw [drop_eq_slice_append st last i hli (by omega)]
      congr 1
      rw [← hrem, hrest]
    by_cases h1 : c = obr
    · subst h1
      cases flag with
      | true =>
        rw [fromAux_cons_obr, if_pos rfl] at hok
        exact Except.noConfusion hok
      | false =>
        rw [fromAux_cons_obr, if_neg Bool.false_ne_true] at hok
        obtain ⟨ht, hne⟩ := ih (i + 1) (i + 1) true _ parts hrest (le_refl _) (by omega)
          (by rw [strSlice_empty]; simp)
          (flushRun_nonempty acc (NamePart.Variable (strSlice st last i)) st last i hli
            (by omega) rfl hacc)
          hok
        refine ⟨?_, hne⟩
        rw [ht, flushRun_text acc (NamePart.Variable (strSlice st last i)) st last i rfl,
          hsplit, List.filter_append, List.filter_eq_self.mpr hpend,
          List.filter_cons_of_neg (by simp [keepChar]),
          List.append_assoc]
    · by_cases h2 : c = cbr
      · subst h2
        cases flag with
        | false =>
          rw [fromAux_cons_cbr, if_neg Bool.false_ne_true] at hok
          exact Except.noConfusion hok
        | true =>
          rw [fromAux_cons_cbr, if_pos rfl] at hok
          obtain ⟨ht, hne⟩ := ih (i + 1) (i + 1) false _ parts hrest (le_refl _) (by omega)
            (by rw [strSlice_empty]; simp)
            (flushRun_nonempty acc (NamePart.String (strSlice st last i)) st last i hli
              (by omega) rfl hacc)
            hok
          refine ⟨?_, hne⟩
          rw [ht, flushRun_text acc (NamePart.String (strSlice st last i)) st last i rfl,
            hsplit, List.filter_append, List.filter_eq_self.mpr hpend,
            List.filter_cons_of_neg (by simp [keepChar]),
            List.append_assoc]
      · by_cases h3 : c = '_'
        · subst h3
          cases flag with
          | true =>
            rw [fromAux_cons_us, if_pos rfl] at hok
            have hpend2 : ∀ x ∈ strSlice st last (i + 1), keepChar x = true := by
              rw [strSlice_extend st last i '_' hli hgc]
              intro x hx
              rcases List.mem_append.mp hx with hm | hm
              · exact hpend x hm
              · rw [List.mem_singleton.mp hm]
                exact keepChar_other '_' h1 h2
            exact ih (i + 1) last true acc parts hrest (by omega) (by omega) hpend2 hacc hok
          | false =>
            rw [fromAux_cons_us, if_neg Bool.false_ne_true] at hok
            obtain ⟨ht, hne⟩ := ih (i + 1) (i + 1) false _ parts hrest (le_refl _) (by omega)
              (by rw [strSlice_empty]; simp)
              (by
                intro q hq
                rcases List.mem_append.mp hq with hm | hm
                · exact flushRun_nonempty acc (NamePart.Variable (strSlice st last i)) st last i
                    hli (by omega) rfl hacc q hm
                · rw [List.mem_singleton.mp hm]
                  simp [partText])
              hok
            refine ⟨?_, hne⟩
            rw [ht, partsText_append,
              flushRun_text acc (NamePart.Variable (strSlice st last i)) st last i rfl, hsplit,
              List.filter_append, List.filter_eq_self.mpr hpend,
              List.filter_cons_of_pos (keepChar_other '_' h1 h2)]
            simp [partsText, partText]
        · rw [fromAux_cons_other st c rest i last flag acc h1 h2 h3] at hok
          have hpend2 : ∀ x ∈ strSlice st last (i + 1), keepChar x = true := by
            rw [strSlice_extend st last i c hli hgc]
            intro x hx
            rcases List.mem_append.mp hx with hm | hm
            · exact hpend x hm
            · rw [List.mem_singleton.mp hm]
              exact keepChar_other c h1 h2
          exact ih (i + 1) last flag acc parts hrest (by omega) (by omega) hpend2 hacc hok

theorem classifyVar_text (p q : NamePart) (h : classifyVar p = Except.ok q) :
    partText q = partText p := by
  cases p with
  | Variable v =>
    cases v with
    | nil => exact Except.noConfusion h
    | cons c t =>
      by_cases hs : c = '%' ∨ c = '*' ∨ c = '?' ∨ c = '#' <;>
        simp [classifyVar, hs] at h <;> subst h <;> rfl
  | String s =>
    simp [classifyVar] at h
    subst h
    rfl
  | Parameter s =>
    simp [classifyVar] at h
    subst h
    rfl
  | Delimiter s =>
    simp [classifyVar] at h
    subst h
    rfl

theorem classifyVar_ok_of_ne (p : NamePart) (h : partText p ≠ []) :
    ∃ q, classifyVar p = Except.ok q := by
  cases p with
  | Variable v =>
    cases v with
    | nil => exact absurd rfl h
    | cons c t =>
      by_cases hs : c = '%' ∨ c = '*' ∨ c = '?' ∨ c = '#'
      · exact ⟨NamePart.Parameter (c :: t), by simp [classifyVar, hs]⟩
      · exact ⟨NamePart.Variable (c :: t), by simp [classifyVar, hs]⟩
  | String s => exact ⟨NamePart.String s, rfl⟩
  | Parameter s => exact ⟨NamePart.Parameter s, rfl⟩
  | Delimiter s => exact ⟨NamePart.Delimiter s, rfl⟩

theorem classifyAll_ok (ps : List NamePart) (h : ∀ p ∈ ps, partText p ≠ []) :
    ∃ qs, classifyAll ps = Except.ok qs := by
  induction ps with
  | nil => exact ⟨[], rfl⟩
  | cons p ps ih =>
    obtain ⟨q, hq⟩ := classifyVar_ok_of_ne p (h p (by simp))
    obtain ⟨qs, hqs⟩ := ih (fun x hx => h x (by simp [hx]))
    exact ⟨q :: qs, by simp [classifyAll, hq, hqs]⟩

theorem classifyAll_text (ps : List NamePart) : ∀ (qs : List NamePart),
    classifyAll ps = Except.ok qs → partsText qs = partsText ps := by
  induction ps with
  | nil =>
    intro qs h
    injection h with hh
    rw [← hh]
  | cons p ps ih =>
    intro qs h
    cases hq : classifyVar p with
    | error e => simp [classifyAll, hq] at h
    | ok q =>
      cases hqs : classifyAll ps with
      | error e => simp [classifyAll, hq, hqs] at h
      | ok qs2 =>
        simp [classifyAll, hq, hqs] at h
        subst h
        rw [partsText_cons, partsText_cons, ih qs2 hqs, classifyVar_text p q hq]

theorem scanOk_text (st : Str) (ps : List NamePart)
    (h : fromAux st st 0 0 false [] = Except.ok ps) :
    partsText ps = st.filter keepChar ∧ ∀ p ∈ ps, partText p ≠ [] := by
  obtain ⟨ht, hne⟩ := fromAux_main st st 0 0 false [] ps (List.drop_zero st).symm
    (le_refl 0) (Nat.zero_le _) (by rw [strSlice_empty]; simp) (by simp) h
  refine ⟨?_, hne⟩
  rw [ht]
  simp [partsText]

theorem digitChar_toNat (d : Nat) (h : d < 10) : (digitChar d).toNat = 48 + d := by
  interval_cases d <;> rfl

theorem digitChar_isDigit (d : Nat) (h : d < 10) : (digitChar d).isDigit = true := by
  interval_cases d <;> rfl

theorem natStrAux_all_digits : ∀ (fuel n : Nat), ∀ c ∈ natStrAux fuel n, c.isDigit = true := by
  intro fuel
  induction fuel with
  | zero => intro n c hc; simp [natStrAux] at hc
  | succ fuel ih =>
    intro n c hc
    cases n with
    | zero => simp [natStrAux] at hc
    | succ m =>
      rw [show natStrAux (fuel + 1) (m + 1) =
          natStrAux fuel ((m + 1) / 10) ++ [digitChar ((m + 1) % 10)] from rfl] at hc
      rcases List.mem_append.mp hc with hm | hm
      · exact ih _ c hm
      · rw [List.mem_singleton.mp hm]
        exact digitChar_isDigit _ (Nat.mod_lt _ (by norm_num))

theorem natStrAux_foldl (fuel : Nat) : ∀ n, n ≤ fuel → (natStrAux fuel n).foldl pstep 0 = n := by
  induction fuel with
  | zero =>
    intro n h
    have hn : n = 0 := by omega
    subst hn
    rfl
  | succ fuel ih =>
    intro n h
    cases n with
    | zero => rfl
    | succ m =>
      rw [show natStrAux (fuel + 1) (m + 1) =
          natStrAux fuel ((m + 1) / 10) ++ [digitChar ((m + 1) % 10)] from rfl]
      rw [List.foldl_append]
      have h2 : (m + 1) / 10 ≤ fuel := by
        have := Nat.div_lt_self (Nat.succ_pos m) (by norm_num : (1 : Nat) < 10)
        omega
      rw [ih _ h2]
      show pstep ((m + 1) / 10) (digitChar ((m + 1) % 10)) = m + 1
      rw [pstep, digitChar_toNat _ (Nat.mod_lt _ (by norm_num))]
      omega

theorem natStr_nonnil (n : Nat) : natStr n ≠ [] := by
  rw [natStr]
  by_cases h : n = 0
  · simp [h]
  · rw [if_neg h]
    cases n with
    | zero => exact absurd rfl h
    | succ m =>
      rw [show natStrAux (m + 1) (m + 1) =
          natStrAux m ((m + 1) / 10) ++ [digitChar ((m + 1) % 10)] from rfl]
      simp

theorem natStr_foldl (n : Nat) : (natStr n).foldl pstep 0 = n := by
  rw [natStr]
  by_cases h : n = 0
  · subst h
    rfl
  · rw [if_neg h]
    exact natStrAux_foldl n n (le_refl n)

theorem natStr_digits (n : Nat) : ∀ c ∈ natStr n, c.isDigit = true := by
  rw [natStr]
  by_cases h : n = 0
  · simp [h]
  · rw [if_neg h]
    exact natStrAux_all_digits n n

theorem parseUsize_zeroPad (w n : Nat) : parseUsize (zeroPad w (natStr n)) = some n := by
  have hne : zeroPad w (natStr n) ≠ [] := by
    rw [zeroPad]
    intro hcon
    exact natStr_nonnil n (List.append_eq_nil.mp hcon).2
  have hdig : (zeroPad w (natStr n)).all (fun c => c.isDigit) = true := by
    rw [zeroPad, List.all_append]
    refine Bool.and_eq_true_iff.mpr ⟨?_, ?_⟩
    · simp [List.all_eq_true, List.mem_replicate]
    · rw [List.all_eq_true]
      exact natStr_digits n
  rw [parseUsize, if_pos ⟨hne, hdig⟩]
  rw [zeroPad, List.foldl_append]
  have hz : List.foldl pstep 0 (List.replicate (w - (natStr n).length) (Char.ofNat 48)) = 0 := by
    generalize (w - (natStr n).length) = k
    induction k with
    | zero => rfl
    | succ k ih =>
      rw [List.replicate_succ]
      show List.foldl pstep (pstep 0 (Char.ofNat 48)) _ = 0
      rw [show pstep 0 (Char.ofNat 48) = 0 from rfl]
      exact ih
  rw [hz, natStr_foldl]

theorem zeroPad_length (w : Nat) (s : Str) : w ≤ (zeroPad w s).length := by
  rw [zeroPad]
  simp
  omega

theorem parseUsize_nil : parseUsize [] = none := by
  simp [parseUsize]

theorem eraseIdx_concat {α : Type} (l : List α) (x : α) :
    (l ++ [x]).eraseIdx l.length = l := by
  induction l with
  | nil => rfl
  | cons a l ih =>
    rw [List.cons_append, List.length_cons, List.eraseIdx_cons_succ, ih]

theorem manualEntry_cons (vec : List Str) (line : Str) (rest : List Str) :
    manualEntry vec (line :: rest) =
      ChooseRes.ok (trimStr line) (trimStr line :: vec) rest := by
  rw [manualEntry, moveToFront]
  have hlen : (vec ++ [trimStr line]).length - 1 = vec.length := by simp
  rw [hlen, List.get?_concat_length, eraseIdx_concat]

theorem chooseLoop_sel (vec : List Str) (defStr : Str) (s : Str) (rest : List Str) (k : Nat)
    (hp : parseUsize (trimStr s) = some k) (h1 : 1 ≤ k) (h2 : k ≤ vec.length) :
    chooseLoop vec false defStr (s :: rest) = LoopOut.sel (k - 1) rest := by
  have hb : trimStr s ≠ [] := by
    intro hcon
    rw [hcon, parseUsize_nil] at hp
    exact Option.noConfusion hp
  simp [chooseLoop, hb, hp, show ¬ vec.length < k by omega, show ¬ k = 0 by omega]

theorem choose_sel (prompt : Str) (vec : List Str) (mc k : Nat) (s : Str) (rest : List Str)
    (x : Str) (hp : parseUsize (trimStr s) = some k) (h1 : 1 ≤ k) (h2 : k ≤ vec.length)
    (hx : vec.get? (k - 1) = some x) :
    choose prompt vec false mc (s :: rest) = ChooseRes.ok x (x :: vec.eraseIdx (k - 1)) rest := by
  have hnz : ¬ vec.length = 0 := by omega
  simp only [choose, if_neg hnz]
  rw [chooseLoop_sel vec _ s rest k hp h1 h2]
  show moveToFront vec (k - 1) rest = _
  rw [moveToFront, hx]

theorem chooseLoop_empty_input (vec : List Str) (defStr : Str) (t : Str) (rest : List Str)
    (ht : trimStr t = []) :
    chooseLoop vec false defStr (t :: rest) = LoopOut.sel 0 rest := by
  simp [chooseLoop, ht]

theorem chooseLoop_manual (vec : List Str) (defStr : Str) (s : Str) (rest : List Str)
    (hb : trimStr s ≠ []) (hp : parseUsize (trimStr s) = some 0) :
    chooseLoop vec false defStr (s :: rest) = LoopOut.goManual rest := by
  simp [chooseLoop, hb, hp]

theorem chooseLoop_lerr (vec : List Str) (defStr : Str) (s : Str) (rest : List Str)
    (hb : trimStr s ≠ []) (hr : rangeParse 1 vec.length (trimStr s) = none) :
    chooseLoop vec true defStr (s :: rest) =
      LoopOut.lerr (s2l "invalid range expression") vec := by
  simp [chooseLoop, hb, hr]

theorem chooseLoop_skip2 (vec : List Str) (defStr : Str) (s : Str) (rest : List Str) (k : Nat)
    (hp : parseUsize (trimStr s) = some k) (hk : vec.length < k) :
    chooseLoop vec false defStr (s :: rest) = chooseLoop vec false defStr rest := by
  have hb : trimStr s ≠ [] := by
    intro hcon
    rw [hcon, parseUsize_nil] at hp
    exact Option.noConfusion hp
  simp [chooseLoop, hb, hp, hk]

theorem choose_empty_input (prompt : Str) (v0 : Str) (w : List Str) (mc : Nat) (t : Str)
    (rest : List Str) (ht : trimStr t = []) :
    choose prompt (v0 :: w) false mc (t :: rest) = ChooseRes.ok v0 (v0 :: w) rest := by
  have hnz : ¬ (v0 :: w).length = 0 := by simp
  simp only [choose, if_neg hnz]
  rw [chooseLoop_empty_input (v0 :: w) _ t rest ht]
  show moveToFront (v0 :: w) 0 rest = _
  rw [moveToFront]
  rfl

theorem choose_manual (prompt : Str) (vec : List Str) (mc : Nat) (s t : Str) (rest : List Str)
    (hv : vec ≠ []) (hs : trimStr s = [Char.ofNat 48]) :
    choose prompt vec false mc (s :: t :: rest) =
      ChooseRes.ok (trimStr t) (trimStr t :: vec) rest := by
  have hnz : ¬ vec.length = 0 := fun h => hv (List.length_eq_zero.mp h)
  simp only [choose, if_neg hnz]
  have hb : trimStr s ≠ [] := by rw [hs]; simp
  have hp : parseUsize (trimStr s) = some 0 := by rw [hs]; rfl
  rw [chooseLoop_manual vec _ s (t :: rest) hb hp]
  show manualEntry vec (t :: rest) = _
  exact manualEntry_cons vec t rest

theorem choose_skip (prompt : Str) (vec : List Str) (mc : Nat) (s : Str) (rest : List Str)
    (k : Nat) (hv : vec ≠ []) (hp : parseUsize (trimStr s) = some k) (hk : vec.length < k) :
    choose prompt vec false mc (s :: rest) = choose prompt vec false mc rest := by
  have hnz : ¬ vec.length = 0 := fun h => hv (List.length_eq_zero.mp h)
  have hb : trimStr s ≠ [] := by
    intro hcon
    rw [hcon, parseUsize_nil] at hp
    exact Option.noConfusion hp
  simp only [choose, if_neg hnz]
  rw [chooseLoop_skip2 vec _ s rest k hp hk]

theorem choose_filter_err (prompt : Str) (vec : List Str) (mc : Nat) (s : Str)
    (rest : List Str) (hv : vec ≠ []) (hb : trimStr s ≠ [])
    (hr : rangeParse 1 vec.length (trimStr s) = none) :
    choose prompt vec true mc (s :: rest) =
      ChooseRes.err (s2l "invalid range expression") vec := by
  have hnz : ¬ vec.length = 0 := fun h => hv (List.length_eq_zero.mp h)
  simp only [choose, if_neg hnz]
  rw [chooseLoop_lerr vec _ s rest hb hr]

theorem utf8Len_ascii (st : Str) (h : ∀ c ∈ st, c.utf8Size = 1) :
    utf8Len st = st.length := by
  induction st with
  | nil => rfl
  | cons c rest ih =>
    rw [utf8Len, List.map_cons, List.sum_cons, h c (List.mem_cons_self c rest)]
    have := ih (fun x hx => h x (List.mem_cons_of_mem c hx))
    rw [utf8Len] at this
    rw [this, List.length_cons]
    omega

theorem takeBytes_ascii : ∀ (st : Str), (∀ c ∈ st, c.utf8Size = 1) → ∀ b, b ≤ st.length →
    takeBytes st b = some (st.take b) := by
  intro st
  induction st with
  | nil =>
    intro h b hb
    have hb0 : b = 0 := by simpa using hb
    subst hb0
    rfl
  | cons c rest ih =>
    intro h b hb
    cases b with
    | zero => rfl
    | succ n =>
      have hc : c.utf8Size = 1 := h c (List.mem_cons_self c rest)
      rw [show takeBytes (c :: rest) (n + 1) =
          if n + 1 < c.utf8Size then none
          else (takeBytes rest (n + 1 - c.utf8Size)).map (fun t => c :: t) from rfl]
      rw [hc, if_neg (by omega)]
      rw [show n + 1 - 1 = n from rfl]
      rw [ih (fun x hx => h x (List.mem_cons_of_mem c hx)) n (by simpa using hb)]
      rfl

theorem dropBytes_ascii : ∀ (st : Str), (∀ c ∈ st, c.utf8Size = 1) → ∀ a, a ≤ st.length →
    dropBytes st a = some (st.drop a) := by
  intro st
  induction st with
  | nil =>
    intro h a ha
    have ha0 : a = 0 := by simpa using ha
    subst ha0
    rfl
  | cons c rest ih =>
    intro h a ha
    cases a with
    | zero => rfl
    | succ n =>
      have hc : c.utf8Size = 1 := h c (List.mem_cons_self c rest)
      rw [show dropBytes (c :: rest) (n + 1) =
          if n + 1 < c.utf8Size then none
          else dropBytes rest (n + 1 - c.utf8Size) from rfl]
      rw [hc, if_neg (by omega)]
      rw [show n + 1 - 1 = n from rfl]
      rw [ih (fun x hx => h x (List.mem_cons_of_mem c hx)) n (by simpa using ha)]
      rfl

theorem byteSlice_ascii (st : Str) (h : ∀ c ∈ st, c.utf8Size = 1) (a b : Nat)
    (h1 : a ≤ b) (h2 : b ≤ st.length) : byteSlice st a b = some (strSlice st a b) := by
  rw [byteSlice, takeBytes_ascii st h b h2]
  show dropBytes (st.take b) a = some (strSlice st a b)
  rw [dropBytes_ascii (st.take b) (fun c hc => h c (List.mem_of_mem_take hc)) a
    (by simp [List.length_take]; omega)]
  rfl

theorem fromAuxBytes_nil (st : Str) (i last : Nat) (flag : Bool) (acc : List NamePart) :
    fromAuxBytes st [] i last flag acc =
      if flag then Except.error (s2l "Invalid Format: Unclosed open marker")
      else if last ≠ utf8Len st then
        match byteSlice st last (utf8Len st) with
        | some sl => Except.ok (acc ++ [NamePart.Variable sl])
        | none => Except.error (s2l "byte index is not a char boundary")
      else Except.ok acc := by
  simp [fromAuxBytes]

theorem fromAuxBytes_cons_obr (st rest : Str) (i last : Nat) (flag : Bool)
    (acc : List NamePart) :
    fromAuxBytes st (obr :: rest) i last flag acc =
      if flag then Except.error (s2l "Invalid Format: unexpected open marker")
      else if i ≠ last then
        match byteSlice st last i with
        | some sl => fromAuxBytes st rest (i + 1) (i + 1) true (acc ++ [NamePart.Variable sl])
        | none => Except.error (s2l "byte index is not a char boundary")
      else fromAuxBytes st rest (i + 1) (i + 1) true acc := by
  simp [fromAuxBytes]

theorem fromAuxBytes_cons_cbr (st rest : Str) (i last : Nat) (flag : Bool)
    (acc : List NamePart) :
    fromAuxBytes st (cbr :: rest) i last flag acc =
      if flag then
        if i ≠ last then
          match byteSlice st last i with
          | some sl => fromAuxBytes st rest (i + 1) (i + 1) false (acc ++ [NamePart.String sl])
          | none => Except.error (s2l "byte index is not a char boundary")
        else fromAuxBytes st rest (i + 1) (i + 1) false acc
      else Except.error (s2l "Invalid Format: unexpected close marker") := by
  have h : cbr ≠ obr := by decide
  simp [fromAuxBytes, h]

theorem fromAuxBytes_cons_us (st rest : Str) (i last : Nat) (flag : Bool)
    (acc : List NamePart) :
    fromAuxBytes st ('_' :: rest) i last flag acc =
      if flag then fromAuxBytes st rest (i + 1) last flag acc
      else if i ≠ last then
        match byteSlice st last i with
        | some sl => fromAuxBytes st rest (i + 1) (i + 1) false
            (acc ++ [NamePart.Variable sl, NamePart.Delimiter [Char.ofNat 95]])
        | none => Except.error (s2l "byte index is not a char boundary")
      else fromAuxBytes st rest (i + 1) (i + 1) false
        (acc ++ [NamePart.Delimiter [Char.ofNat 95]]) := by
  have h1 : '_' ≠ obr := by decide
  have h2 : '_' ≠ cbr := by decide
  cases flag <;> simp [fromAuxBytes, h1, h2]

theorem fromAuxBytes_cons_other (st : Str) (c : Char) (rest : Str) (i last : Nat)
    (flag : Bool) (acc : List NamePart) (h1 : c ≠ obr) (h2 : c ≠ cbr) (h3 : c ≠ '_') :
    fromAuxBytes st (c :: rest) i last flag acc = fromAuxBytes st rest (i + 1) last flag acc := by
  simp [fromAuxBytes, h1, h2, h3]

/-- On a template whose characters are all single byte, the byte-exact scan
agrees with the character-index scan from every valid intermediate state:
character indices and byte offsets coincide, and every slice end point is a
character boundary. -/
theorem fromAuxBytes_agree (st : Str) (hascii : ∀ c ∈ st, c.utf8Size = 1) :
    ∀ (rem : Str) (i last : Nat) (flag : Bool) (acc : List NamePart),
    rem = st.drop i → last ≤ i → i ≤ st.length →
    fromAuxBytes st rem i last flag acc = fromAux st rem i last flag acc := by
  intro rem
  induction rem with
  | nil =>
    intro i last flag acc hrem hli hil
    have hlen : st.length ≤ i := List.drop_eq_nil_iff_le.mp hrem.symm
    rw [fromAuxBytes_nil, fromAux_nil, utf8Len_ascii st hascii]
    cases flag with
    | true => rfl
    | false =>
      rw [if_neg Bool.false_ne_true, if_neg Bool.false_ne_true]
      by_cases hl : last = st.length
      · rw [if_neg (by simp [hl]), if_neg (by simp [hl])]
      · rw [if_pos hl, if_pos hl, byteSlice_ascii st hascii last st.length (by omega) (le_refl _)]
  | cons c rest ih =>
    intro i last flag acc hrem hli hil
    have hlt : i < st.length := by
      by_contra hcon
      have hnil : st.drop i = [] := List.drop_eq_nil_iff_le.mpr (by omega)
      rw [hnil] at hrem
      exact List.noConfusion hrem
    have hrest : rest = st.drop (i + 1) := by
      have hd := List.drop_drop 1 i st
      rw [← hrem] at hd
      simpa using hd
    have hslice : byteSlice st last i = some (strSlice st last i) :=
      byteSlice_ascii st hascii last i hli (by omega)
    by_cases h1 : c = obr
    · subst h1
      rw [fromAuxBytes_cons_obr, fromAux_cons_obr]
      cases flag with
      | true => rfl
      | false =>
        rw [if_neg Bool.false_ne_true, if_neg Bool.false_ne_true]
        by_cases hil2 : i = last
        · rw [if_neg (by simp [hil2]), if_neg (by simp [hil2])]
          exact ih (i + 1) (i + 1) true acc hrest (le_refl _) (by omega)
        · rw [if_pos hil2, if_pos hil2, hslice]
          exact ih (i + 1) (i + 1) true _ hrest (le_refl _) (by omega)
    · by_cases h2 : c = cbr
      · subst h2
        rw [fromAuxBytes_cons_cbr, fromAux_cons_cbr]
        cases flag with
        | false => rfl
        | true =>
          rw [if_pos rfl, if_pos rfl]
          by_cases hil2 : i = last
          · rw [if_neg (by simp [hil2]), if_neg (by simp [hil2])]
            exact ih (i + 1) (i + 1) false acc hrest (le_refl _) (by omega)
          · rw [if_pos hil2, if_pos hil2, hslice]
            exact ih (i + 1) (i + 1) false _ hrest (le_refl _) (by omega)
      · by_cases h3 : c = '_'
        · subst h3
          rw [fromAuxBytes_cons_us, fromAux_cons_us]
          cases flag with
          | true =>
            rw [if_pos rfl, if_pos rfl]
            exact ih (i + 1) last true acc hrest (by omega) (by omega)
          | false =>
            rw [if_neg Bool.false_ne_true, if_neg Bool.false_ne_true]
            by_cases hil2 : i = last
            · rw [if_neg (by simp [hil2]), if_neg (by simp [hil2])]
              exact ih (i + 1) (i + 1) false _ hrest (le_refl _) (by omega)
            · rw [if_pos hil2, if_pos hil2, hslice]
              show fromAuxBytes st rest (i + 1) (i + 1) false
                  (acc ++ [NamePart.Variable (strSlice st last i),
                    NamePart.Delimiter [Char.ofNat 95]]) = _
              rw [show acc ++ [NamePart.Variable (strSlice st last i),
                  NamePart.Delimiter [Char.ofNat 95]] =
                (acc ++ [NamePart.Variable (strSlice st last i)])
                  ++ [NamePart.Delimiter [Char.ofNat 95]] from by simp]
              exact ih (i + 1) (i + 1) false _ hrest (le_refl _) (by omega)
        · rw [fromAuxBytes_cons_other st c rest i last flag acc h1 h2 h3,
            fromAux_cons_other st c rest i last flag acc h1 h2 h3]
          exact ih (i + 1) last flag acc hrest (by omega) (by omega)

/-- On a single-byte template, the byte-exact parser agrees with the
character-index parser. -/
theorem fromStrBytes_ascii (st : Str) (hascii : ∀ c ∈ st, c.utf8Size = 1) :
    NameTemplate.fromStrBytes st = NameTemplate.fromStr st := by
  rw [NameTemplate.fromStrBytes, NameTemplate.fromStr,
    fromAuxBytes_agree st hascii st 0 0 false [] (List.drop_zero st).symm (le_refl 0)
      (Nat.zero_le _)]

/-! Claim theorems. -/

/-- Claim C1, counterexample: the claimed scenario fails on the code.  For the
template `(open)name(close)_(open)###(close)` the parser classifies the
marker-bounded runs as literal `String` parts (not variables), so rendering
with stem "img", sequence index 3, empty history and the input line "beach"
produces the literal parts "name", "_", "###" — the chooser is never invoked
(stdin is unconsumed, history untouched) and the joined name is not
"beach_003". -/
theorem c1_counterexample :
    NameTemplate.fromStr (s2l "\x7bname\x7d_\x7b###\x7d") =
      Except.ok (NameTemplate.mk [NamePart.String (s2l "name"), NamePart.Delimiter (s2l "_"),
        NamePart.String (s2l "###")])
    ∧ renderFilename (s2l "img") (History.mk [] [] [])
        (NameTemplate.mk [NamePart.String (s2l "name"), NamePart.Delimiter (s2l "_"),
          NamePart.String (s2l "###")]) 3 false 20 (fun _ => []) [s2l "beach"] =
      RenderRes.ok [s2l "name", s2l "_", s2l "###"] (History.mk [] [] []) [s2l "beach"]
    ∧ [s2l "name", s2l "_", s2l "###"].flatten ≠ s2l "beach_003" :=
  ⟨by decide, by decide, by decide⟩

/-- Claim C1, amended: the scenario holds for the bare template `name_###`:
bare runs are Variable candidates and sigil-prefixed bare runs become
SpecialParameters, so with stem "img", sequence index 3, a history with no
entry for `name` and manual entry "beach" the engine produces the parts
"beach", "_", "003" and the joined name "beach_003"; marker-bounded runs are
literal text instead. -/
theorem c1_amended :
    NameTemplate.fromStr (s2l "name_###") =
      Except.ok (NameTemplate.mk [NamePart.Variable (s2l "name"), NamePart.Delimiter (s2l "_"),
        NamePart.Parameter (s2l "###")])
    ∧ renderFilename (s2l "img") (History.mk [] [] [])
        (NameTemplate.mk [NamePart.Variable (s2l "name"), NamePart.Delimiter (s2l "_"),
          NamePart.Parameter (s2l "###")]) 3 false 20 (fun _ => []) [s2l "beach"] =
      RenderRes.ok [s2l "beach", s2l "_", s2l "003"]
        (History.mk [] [s2l "name"] [(s2l "name", [s2l "beach"])]) []
    ∧ [s2l "beach", s2l "_", s2l "003"].flatten = s2l "beach_003" :=
  ⟨by decide, by decide, by decide⟩

/-- Claim C2, counterexample: two defects of the claim on the byte-exact
parser.  First, an empty marker body is not a parse error — the two-character
template of an open marker followed immediately by a close marker parses
successfully to an empty part list (the empty body is silently dropped).
Second, the failure set is not limited to the claimed malformed inputs: the
well-nested template "aé_b" fails too, because the scan slices `&st[0..2]`
with the character index 2 used as a byte offset, which falls inside the
two-byte character é (a Rust boundary panic). -/
theorem c2_counterexample :
    NameTemplate.fromStrBytes (s2l "\x7b\x7d") = Except.ok (NameTemplate.mk [])
    ∧ isOkE (NameTemplate.fromStrBytes (s2l "aé_b")) = false
    ∧ markersOk false (s2l "aé_b") = true :=
  ⟨by decide, by decide, by decide⟩

/-- Success of the character-index parser is exactly marker well-nestedness
(helper for the amended claim C2). -/
theorem fromStr_markers_char (st : Str) :
    isOkE (NameTemplate.fromStr st) = markersOk false st := by
  cases hscan : fromAux st st 0 0 false [] with
  | error e =>
    have h := fromAux_isOk st st 0 0 false []
    rw [hscan] at h
    simp [NameTemplate.fromStr, hscan, isOkE_error]
    rw [← h]
    rfl
  | ok ps =>
    have h := fromAux_isOk st st 0 0 false []
    rw [hscan] at h
    obtain ⟨qs, hqs⟩ := classifyAll_ok ps (scanOk_text st ps hscan).2
    simp [NameTemplate.fromStr, hscan, hqs, isOkE_ok]
    rw [← h]
    rfl

/-- Claim C2, amended: restricted to templates whose characters are all
single-byte, the parser fails on exactly three malformed inputs and nothing
else — an unopened close-marker, an unclosed open-marker, and an open-marker
occurring inside a marker (the conditions of `markersOk`); an empty marker
body is NOT an error and is silently dropped, and every such template whose
markers are well nested parses successfully.  Beyond single-byte characters
the parser has a fourth failure mode: the scan uses character indices as byte
offsets, so even well-nested templates can hit a byte-boundary panic (see the
counterexample). -/
theorem c2_amended (st : Str) (hascii : ∀ c ∈ st, c.utf8Size = 1) :
    isOkE (NameTemplate.fromStrBytes st) = markersOk false st := by
  rw [fromStrBytes_ascii st hascii]
  exact fromStr_markers_char st

/-- Claim C2, amended-witness: the amended characterisation at the concrete
single-byte template `a_(open)b(close)c`. -/
theorem c2_witness :
    isOkE (NameTemplate.fromStrBytes (s2l "a_\x7bb\x7dc")) =
      markersOk false (s2l "a_\x7bb\x7dc") :=
  c2_amended (s2l "a_\x7bb\x7dc") (by decide)

/-- Claim C3, counterexample: in filter mode, the malformed range expression
"abc" is NOT a recoverable input error: `choose` returns an error result
immediately (the source propagates the parse failure with the `?` operator)
instead of re-prompting — the following stdin line "1" is never consumed. -/
theorem c3_counterexample :
    choose (s2l "v") [s2l "x", s2l "y"] true 20 [s2l "abc", s2l "1"] =
      ChooseRes.err (s2l "invalid range expression") [s2l "x", s2l "y"] := by decide

/-- Claim C3, amended: in filter mode a malformed range expression causes
`choose` to return an error to its caller at once (no re-prompt), with the
candidate list left unchanged at that point. -/
theorem c3_amended (prompt : Str) (vec : List Str) (mc : Nat) (s : Str) (rest : List Str)
    (hv : vec ≠ []) (hb : trimStr s ≠ [])
    (hr : rangeParse 1 vec.length (trimStr s) = none) :
    choose prompt vec true mc (s :: rest) =
      ChooseRes.err (s2l "invalid range expression") vec :=
  choose_filter_err prompt vec mc s rest hv hb hr

/-- Claim C3, amended-witness: the amended statement at the concrete
malformed input "abc" with candidates "x", "y". -/
theorem c3_witness :
    choose (s2l "v") [s2l "x", s2l "y"] true 20 [s2l "abc"] =
      ChooseRes.err (s2l "invalid range expression") [s2l "x", s2l "y"] :=
  c3_amended (s2l "v") [s2l "x", s2l "y"] 20 (s2l "abc") [] (by decide) (by decide) (by decide)

/-- The round-trip law for the character-index parser (helper for the
amended claim C4). -/
theorem fromStr_roundtrip_char (st : Str) (t : NameTemplate)
    (h : NameTemplate.fromStr st = Except.ok t) :
    partsText t.parts = st.filter keepChar := by
  cases hscan : fromAux st st 0 0 false [] with
  | error e => simp [NameTemplate.fromStr, hscan] at h
  | ok ps =>
    cases hq : classifyAll ps with
    | error e => simp [NameTemplate.fromStr, hscan, hq] at h
    | ok qs =>
      simp [NameTemplate.fromStr, hscan, hq] at h
      rw [← h]
      rw [show (NameTemplate.mk qs).parts = qs from rfl]
      rw [classifyAll_text ps qs hq, (scanOk_text st ps hscan).1]

/-- Claim C4, counterexample: the round-trip law fails on the program.  On
the template "éa_b" the byte-exact parse SUCCEEDS but the slices use
character indices as byte offsets: `&st[0..2]` is "é" (dropping the 'a') and
the final `&st[3..5]` is "_b" (double-counting the '_'), so the concatenated
part text "é__b" differs from the marker-stripped source "éa_b". -/
theorem c4_counterexample :
    NameTemplate.fromStrBytes (s2l "éa_b") =
      Except.ok (NameTemplate.mk [NamePart.Variable (s2l "é"), NamePart.Delimiter (s2l "_"),
        NamePart.Variable (s2l "_b")])
    ∧ partsText [NamePart.Variable (s2l "é"), NamePart.Delimiter (s2l "_"),
        NamePart.Variable (s2l "_b")] ≠ (s2l "éa_b").filter keepChar :=
  ⟨by decide, by decide⟩

/-- Claim C4, amended: the parsing round-trip law restricted to templates
whose characters are all single-byte.  For every such template on which
parsing succeeds, concatenating the source text of all produced parts in
order reproduces the original string with exactly the open- and close-marker
characters removed; every other character is accounted for, in source order.
On multi-byte templates the law fails because the scan slices with character
indices used as byte offsets (see the counterexample). -/
theorem c4_amended (st : Str) (hascii : ∀ c ∈ st, c.utf8Size = 1) (t : NameTemplate)
    (h : NameTemplate.fromStrBytes st = Except.ok t) :
    partsText t.parts = st.filter keepChar := by
  rw [fromStrBytes_ascii st hascii] at h
  exact fromStr_roundtrip_char st t h

/-- Claim C4, amended-witness: the round-trip law at the concrete single-byte
template `ab_(open)cd(close)_ef`, whose marker-stripped text is `ab_cd_ef`. -/
theorem c4_witness :
    partsText (NameTemplate.mk [NamePart.Variable (s2l "ab"), NamePart.Delimiter (s2l "_"),
      NamePart.String (s2l "cd"), NamePart.Delimiter (s2l "_"),
      NamePart.Variable (s2l "ef")]).parts = (s2l "ab_\x7bcd\x7d_ef").filter keepChar :=
  c4_amended (s2l "ab_\x7bcd\x7d_ef") (by decide)
    (NameTemplate.mk [NamePart.Variable (s2l "ab"), NamePart.Delimiter (s2l "_"),
      NamePart.String (s2l "cd"), NamePart.Delimiter (s2l "_"),
      NamePart.Variable (s2l "ef")]) (by decide)

/-- Claim C5: index padding.  For a special parameter of W index-marker
characters and sequence index N at least 1, the resolver returns N in decimal
zero-padded on the left to width W; the output's length is at least W and
parsing it back as a decimal number yields exactly N (the width is a minimum,
never a truncation). -/
theorem c5_index_padding (cur : Str) (nf : Str → Str) (w n : Nat) (hw : 1 ≤ w) (hn : 1 ≤ n) :
    resolveSpecial cur n nf (List.replicate w '#') = some (zeroPad w (natStr n))
    ∧ w ≤ (zeroPad w (natStr n)).length
    ∧ parseUsize (zeroPad w (natStr n)) = some n := by
  refine ⟨?_, zeroPad_length w (natStr n), parseUsize_zeroPad w n⟩
  rw [resolveSpecial, if_pos (by simp [List.all_eq_true, List.mem_replicate]),
    List.length_replicate]

/-- Claim C5, witness: the index-padding rule at width 3 and index 3,
producing "003". -/
theorem c5_witness :
    resolveSpecial [] 3 (fun _ => []) (List.replicate 3 '#') = some (s2l "003") :=
  ((c5_index_padding [] (fun _ => []) 3 3 (by decide) (by decide)).1).trans (by decide)

/-- Claim C6: recency promotion in non-filter mode.  Selecting the `k`-th
candidate (1-based, via a numeric input line) returns that value, moved to
index 0 of the candidate list; and with the promoted list, an empty input
line (the default, index 1) reselects the same value and leaves the list
unchanged. -/
theorem c6_recency (prompt : Str) (vec : List Str) (mc k : Nat) (s : Str) (rest : List Str)
    (x : Str) (hp : parseUsize (trimStr s) = some k) (h1 : 1 ≤ k) (h2 : k ≤ vec.length)
    (hx : vec.get? (k - 1) = some x) :
    choose prompt vec false mc (s :: rest) = ChooseRes.ok x (x :: vec.eraseIdx (k - 1)) rest
    ∧ ∀ (t : Str) (rest2 : List Str), trimStr t = [] →
      choose prompt (x :: vec.eraseIdx (k - 1)) false mc (t :: rest2) =
        ChooseRes.ok x (x :: vec.eraseIdx (k - 1)) rest2 := by
  refine ⟨choose_sel prompt vec mc k s rest x hp h1 h2 hx, ?_⟩
  intro t rest2 ht
  exact choose_empty_input prompt x (vec.eraseIdx (k - 1)) mc t rest2 ht

/-- Claim C6, witness: selecting index 2 from the candidates "a", "b"
returns "b" moved to the front, and an empty input then reselects "b". -/
theorem c6_witness :
    choose (s2l "v") [s2l "a", s2l "b"] false 20 [s2l "2"] =
      ChooseRes.ok (s2l "b") [s2l "b", s2l "a"] []
    ∧ choose (s2l "v") [s2l "b", s2l "a"] false 20 [[]] =
      ChooseRes.ok (s2l "b") [s2l "b", s2l "a"] [] := by
  have h := c6_recency (s2l "v") [s2l "a", s2l "b"] 20 2 (s2l "2") [] (s2l "b")
    (by decide) (by decide) (by decide) (by decide)
  exact ⟨h.1, h.2 [] [] (by decide)⟩

/-- Claim C7, counterexample: an out-of-range selection does NOT trigger
manual text entry.  With the single candidate "a" and input lines "5" then
"b", the claim predicts manual entry returning "b" with the list "b", "a";
the code instead rejects "5" (out of range) and re-prompts, then rejects "b"
(not numeric) and re-prompts, exhausting input (blocking forever). -/
theorem c7_counterexample :
    choose (s2l "v") [s2l "a"] false 20 [s2l "5", s2l "b"] = ChooseRes.blocked
    ∧ choose (s2l "v") [s2l "a"] false 20 [s2l "5", s2l "b"] ≠
      ChooseRes.ok (s2l "b") [s2l "b", s2l "a"] [] :=
  ⟨by decide, by decide⟩

/-- Claim C7, amended: in non-filter mode, input index 0 triggers manual text
entry — the entered text (trimmed) is added to the candidate list as the new
most-recent entry at index 0 and returned — whereas an out-of-range selection
index (greater than the list length) is rejected with a re-prompt: the call
behaves exactly as the same call on the remaining input. -/
theorem c7_amended (prompt : Str) (vec : List Str) (mc : Nat) (hv : vec ≠ []) :
    (∀ (s t : Str) (rest : List Str), trimStr s = s2l "0" →
      choose prompt vec false mc (s :: t :: rest) =
        ChooseRes.ok (trimStr t) (trimStr t :: vec) rest)
    ∧ ∀ (s : Str) (rest : List Str) (k : Nat), parseUsize (trimStr s) = some k →
      vec.length < k →
      choose prompt vec false mc (s :: rest) = choose prompt vec false mc rest := by
  constructor
  · intro s t rest hs
    exact choose_manual prompt vec mc s t rest hv (by rw [hs]; rfl)
  · intro s rest k hp hk
    exact choose_skip prompt vec mc s rest k hv hp hk

/-- Claim C7, amended-witness: with candidate "a", input "0" then "new"
performs manual entry of "new" at the front; and with input "9" (out of
range) the call equals the call on the remaining input. -/
theorem c7_witness :
    choose (s2l "v") [s2l "a"] false 20 [s2l "0", s2l "new"] =
      ChooseRes.ok (s2l "new") [s2l "new", s2l "a"] []
    ∧ choose (s2l "v") [s2l "a"] false 20 [s2l "9", s2l "1"] =
      choose (s2l "v") [s2l "a"] false 20 [s2l "1"] := by
  have h := c7_amended (s2l "v") [s2l "a"] 20 (by decide)
  exact ⟨h.1 (s2l "0") (s2l "new") [] (by decide),
    h.2 (s2l "9") [s2l "1"] 9 (by decide) (by decide)⟩

/-- Claim C8: the prefix-group rule.  For a special parameter of N
group-count-marker characters (N at least 1) and any original stem, the
resolver splits the stem on the underscore delimiter, takes the first N
groups (`List.take` clamps to the available groups), and rejoins them with
the underscore delimiter. -/
theorem c8_prefix_groups (cur : Str) (num : Nat) (nf : Str → Str) (n : Nat) (hn : 1 ≤ n) :
    resolveSpecial cur num nf (List.replicate n '*') =
      some (List.intercalate (s2l "_") ((splitChar '_' cur).take n)) := by
  obtain ⟨m, rfl⟩ : ∃ m, n = m + 1 := ⟨n - 1, by omega⟩
  rw [resolveSpecial]
  rw [if_neg (by simp [List.all_eq_true, List.mem_replicate])]
  rw [if_neg (by
    rw [List.replicate_succ]
    intro hcon
    injection hcon with hc1 hc2
    exact absurd hc1 (by decide))]
  rw [if_neg (by simp [strStartsWith, List.replicate_succ])]
  rw [if_pos (by simp [List.all_eq_true, List.mem_replicate]), List.length_replicate]
  rw [show s2l "_" = [Char.ofNat 95] from rfl]

/-- Claim C8, witness: a group-count marker of length 2 on the stem
"a_b_c_d" yields "a_b". -/
theorem c8_witness :
    resolveSpecial (s2l "a_b_c_d") 1 (fun _ => []) (List.replicate 2 '*') = some (s2l "a_b") :=
  (c8_prefix_groups (s2l "a_b_c_d") 1 (fun _ => []) 2 (by decide)).trans (by decide)

/-- Claim C9: with repeat-last set and a Variable present in the history's
values, rendering reads element 0 of the stored list with no emptiness
check: if the stored list is empty the function panics (the source's
out-of-bounds indexing), and if it is non-empty the access is in bounds and
rendering returns the first stored value without prompting or touching the
history. -/
theorem c9_repeat_last (cur : Str) (hist : History) (v : Str) (num mc : Nat)
    (nf : Str → Str) (stdin : List Str) :
    (lookupVals hist.values v = some [] →
      renderFilename cur hist (NameTemplate.mk [NamePart.Variable v]) num true mc nf stdin =
        RenderRes.panicked (s2l "index out of bounds"))
    ∧ ∀ (x : Str) (l : List Str), lookupVals hist.values v = some (x :: l) →
      renderFilename cur hist (NameTemplate.mk [NamePart.Variable v]) num true mc nf stdin =
        RenderRes.ok [x] hist stdin := by
  constructor
  · intro h
    simp [renderFilename, renderParts, h]
  · intro x l h
    simp [renderFilename, renderParts, h, renderCons]

/-- Claim C9, witness: the panic at a concrete empty stored list, and the
in-bounds access at a concrete singleton stored list. -/
theorem c9_witness :
    renderFilename (s2l "img") (History.mk [] [] [(s2l "name", [])])
        (NameTemplate.mk [NamePart.Variable (s2l "name")]) 1 true 20 (fun _ => []) [] =
      RenderRes.panicked (s2l "index out of bounds")
    ∧ renderFilename (s2l "img") (History.mk [] [] [(s2l "name", [s2l "x"])])
        (NameTemplate.mk [NamePart.Variable (s2l "name")]) 1 true 20 (fun _ => []) [] =
      RenderRes.ok [s2l "x"] (History.mk [] [] [(s2l "name", [s2l "x"])]) [] :=
  ⟨(c9_repeat_last (s2l "img") (History.mk [] [] [(s2l "name", [])]) (s2l "name") 1 20
      (fun _ => []) []).1 (by decide),
    (c9_repeat_last (s2l "img") (History.mk [] [] [(s2l "name", [s2l "x"])]) (s2l "name") 1 20
      (fun _ => []) []).2 (s2l "x") [] (by decide)⟩

/-- Claim C10: on every input on which the scan succeeds, every produced part
has non-empty text, so the second classification pass (which reads the first
character of each Variable) never hits its empty-variable assertion: it
succeeds on the scan's output. -/
theorem c10_nonempty (st : Str) (ps : List NamePart)
    (h : fromAux st st 0 0 false [] = Except.ok ps) :
    (∀ p ∈ ps, partText p ≠ []) ∧ isOkE (classifyAll ps) = true := by
  have h2 := (scanOk_text st ps h).2
  refine ⟨h2, ?_⟩
  obtain ⟨qs, hqs⟩ := classifyAll_ok ps h2
  rw [hqs]
  rfl

/-- Claim C10, witness: the non-emptiness invariant and classification
success at the concrete template `img_###`. -/
theorem c10_witness :
    (∀ p ∈ [NamePart.Variable (s2l "img"), NamePart.Delimiter (s2l "_"),
      NamePart.Variable (s2l "###")], partText p ≠ [])
    ∧ isOkE (classifyAll [NamePart.Variable (s2l "img"), NamePart.Delimiter (s2l "_"),
      NamePart.Variable (s2l "###")]) = true :=
  c10_nonempty (s2l "img_###")
    [NamePart.Variable (s2l "img"), NamePart.Delimiter (s2l "_"),
      NamePart.Variable (s2l "###")] (by decide)
